import Mathlib

set_option maxHeartbeats 1000000
set_option maxRecDepth 4000
set_option linter.unusedSectionVars false

/-!
Verification of the LiDAR SLAM pipeline of the Autonomous-Navigation-Rover
repository.  The Python sources `Lidar_pose.py`, `slam_map.py`,
`Realtime_Lidar_811_points.py`, `realtime_lidar.py` and `withframes.py` are
shallowly embedded below: float arithmetic is idealised as exact arithmetic in
a linear ordered field (instantiated at `ℚ` for concrete evaluations),
`numpy.linalg.svd` is an oracle function constrained by hypotheses stating the
factorisation contract, and Python exceptions become `Option`/sum results.
-/

section Algebra

variable {α : Type} [LinearOrderedField α]

/-- A 2D vector, the `(x, y)` rows of the numpy point arrays. -/
structure Vec2 (α : Type) where
  x : α
  y : α
deriving DecidableEq, Repr

/-- A 2×2 matrix, as used for rotations and cross-covariances. -/
structure Mat2 (α : Type) where
  a : α
  b : α
  c : α
  d : α
deriving DecidableEq, Repr

namespace Vec2

instance : Add (Vec2 α) := ⟨fun v w => ⟨v.x + w.x, v.y + w.y⟩⟩
instance : Sub (Vec2 α) := ⟨fun v w => ⟨v.x - w.x, v.y - w.y⟩⟩
instance : Zero (Vec2 α) := ⟨⟨0, 0⟩⟩

@[simp] theorem vadd_def (v w : Vec2 α) : v + w = ⟨v.x + w.x, v.y + w.y⟩ := rfl
@[simp] theorem vsub_def (v w : Vec2 α) : v - w = ⟨v.x - w.x, v.y - w.y⟩ := rfl
@[simp] theorem vzero_def : (0 : Vec2 α) = ⟨0, 0⟩ := rfl

end Vec2

/-- Dot product of two 2D vectors. -/
def dot2 (v w : Vec2 α) : α := v.x * w.x + v.y * w.y

/-- Squared euclidean distance between two points (nearest-neighbour metric). -/
def dist2 (v w : Vec2 α) : α := (v.x - w.x) ^ 2 + (v.y - w.y) ^ 2

namespace Mat2

instance : One (Mat2 α) := ⟨⟨1, 0, 0, 1⟩⟩
instance : Zero (Mat2 α) := ⟨⟨0, 0, 0, 0⟩⟩
instance : Add (Mat2 α) := ⟨fun M N => ⟨M.a + N.a, M.b + N.b, M.c + N.c, M.d + N.d⟩⟩
instance : Mul (Mat2 α) :=
  ⟨fun M N => ⟨M.a * N.a + M.b * N.c, M.a * N.b + M.b * N.d,
               M.c * N.a + M.d * N.c, M.c * N.b + M.d * N.d⟩⟩

@[simp] theorem mone_def : (1 : Mat2 α) = ⟨1, 0, 0, 1⟩ := rfl
@[simp] theorem mzero_def : (0 : Mat2 α) = ⟨0, 0, 0, 0⟩ := rfl
@[simp] theorem madd_def (M N : Mat2 α) :
    M + N = ⟨M.a + N.a, M.b + N.b, M.c + N.c, M.d + N.d⟩ := rfl
@[simp] theorem mmul_def (M N : Mat2 α) :
    M * N = ⟨M.a * N.a + M.b * N.c, M.a * N.b + M.b * N.d,
             M.c * N.a + M.d * N.c, M.c * N.b + M.d * N.d⟩ := rfl

end Mat2

/-- Transpose. -/
def tr2 (M : Mat2 α) : Mat2 α := ⟨M.a, M.c, M.b, M.d⟩

/-- Determinant. -/
def det2 (M : Mat2 α) : α := M.a * M.d - M.b * M.c

/-- Diagonal matrix `diag(s1, s2)` (`np.diag` of the singular values). -/
def diag2 (s1 s2 : α) : Mat2 α := ⟨s1, 0, 0, s2⟩

/-- Matrix-vector product. -/
def mulVec2 (M : Mat2 α) (v : Vec2 α) : Vec2 α :=
  ⟨M.a * v.x + M.b * v.y, M.c * v.x + M.d * v.y⟩

/-- Outer product `v wᵀ` (one term of a cross-covariance `AAᵀ @ BB`). -/
def outer2 (v w : Vec2 α) : Mat2 α := ⟨v.x * w.x, v.x * w.y, v.y * w.x, v.y * w.y⟩

/-- Quadratic form `vᵀ M v`. -/
def quadForm (M : Mat2 α) (v : Vec2 α) : α := dot2 v (mulVec2 M v)

/-- Negating the second row of a matrix: the `Vt[1, :] *= -1` reflection fix in
`best_fit_transform` (`Lidar_pose.py`) and `icp_point_to_point` (`slam_map.py`). -/
def flipRow1 (M : Mat2 α) : Mat2 α := ⟨M.a, M.b, -M.c, -M.d⟩

theorem mat2_ext {M N : Mat2 α} (ha : M.a = N.a) (hb : M.b = N.b)
    (hc : M.c = N.c) (hd : M.d = N.d) : M = N := by
  cases M; cases N; simp_all

theorem mul2_assoc (M N P : Mat2 α) : M * N * P = M * (N * P) := by
  apply mat2_ext <;> simp <;> ring

theorem one2_mul (M : Mat2 α) : (1 : Mat2 α) * M = M := by
  apply mat2_ext <;> simp

theorem mul2_one (M : Mat2 α) : M * (1 : Mat2 α) = M := by
  apply mat2_ext <;> simp

theorem tr2_mul (M N : Mat2 α) : tr2 (M * N) = tr2 N * tr2 M := by
  apply mat2_ext <;> simp [tr2] <;> ring

theorem tr2_tr2 (M : Mat2 α) : tr2 (tr2 M) = M := by
  apply mat2_ext <;> simp [tr2]

theorem det2_mul (M N : Mat2 α) : det2 (M * N) = det2 M * det2 N := by
  simp [det2]; ring

theorem det2_tr2 (M : Mat2 α) : det2 (tr2 M) = det2 M := by
  simp [det2, tr2]; ring

theorem det2_one : det2 (1 : Mat2 α) = 1 := by simp [det2]

/-- Matrix `M` is orthogonal when `Mᵀ M = 1`. -/
def IsOrtho (M : Mat2 α) : Prop := tr2 M * M = 1

instance (M : Mat2 α) : Decidable (IsOrtho M) := by
  unfold IsOrtho; infer_instance

theorem isOrtho_eqns {M : Mat2 α} (h : IsOrtho M) :
    M.a ^ 2 + M.c ^ 2 = 1 ∧ M.a * M.b + M.c * M.d = 0 ∧ M.b ^ 2 + M.d ^ 2 = 1 := by
  obtain ⟨a, b, c, d⟩ := M
  simp only [IsOrtho, tr2, Mat2.mmul_def, Mat2.mone_def, Mat2.mk.injEq] at h
  refine ⟨?_, ?_, ?_⟩ <;> nlinarith [h.1, h.2.1, h.2.2.1, h.2.2.2]

/-- Squared determinant of an orthogonal matrix is 1. -/
theorem isOrtho_det_sq {M : Mat2 α} (h : IsOrtho M) : det2 M ^ 2 = 1 := by
  obtain ⟨h1, h2, h3⟩ := isOrtho_eqns h
  have : det2 M ^ 2 + (M.a * M.b + M.c * M.d) ^ 2 =
      (M.a ^ 2 + M.c ^ 2) * (M.b ^ 2 + M.d ^ 2) := by
    simp [det2]; ring
  rw [h1, h2, h3] at this
  linarith [this]

/-- Every 2×2 orthogonal matrix is a rotation (`det = 1`, `b = -c`, `d = a`) or a
reflection (`det = -1`, `b = c`, `d = -a`). -/
theorem isOrtho_cases {M : Mat2 α} (h : IsOrtho M) :
    (det2 M = 1 ∧ M.b = -M.c ∧ M.d = M.a) ∨
    (det2 M = -1 ∧ M.b = M.c ∧ M.d = -M.a) := by
  obtain ⟨h1, h2, h3⟩ := isOrtho_eqns h
  have hdsq := isOrtho_det_sq h
  have hb : M.b = -M.c * det2 M := by
    simp only [det2]; linear_combination (-M.b) * h1 + M.a * h2
  have hd : M.d = M.a * det2 M := by
    simp only [det2]; linear_combination (-M.d) * h1 + M.c * h2
  have : (det2 M - 1) * (det2 M + 1) = 0 := by ring_nf; linarith [hdsq]
  rcases mul_eq_zero.mp this with h' | h'
  · left
    have hdet : det2 M = 1 := by linarith
    exact ⟨hdet, by rw [hb, hdet]; ring, by rw [hd, hdet]; ring⟩
  · right
    have hdet : det2 M = -1 := by linarith
    exact ⟨hdet, by rw [hb, hdet]; ring, by rw [hd, hdet]; ring⟩

/-- An orthogonal matrix is two-sided orthogonal: `M Mᵀ = 1` as well. -/
theorem isOrtho_mul_tr {M : Mat2 α} (h : IsOrtho M) : M * tr2 M = 1 := by
  obtain ⟨h1, h2, h3⟩ := isOrtho_eqns h
  rcases isOrtho_cases h with ⟨hdet, hb, hd⟩ | ⟨hdet, hb, hd⟩ <;>
    · apply mat2_ext <;> simp only [tr2, Mat2.mmul_def, Mat2.mone_def] <;>
        simp only [hb, hd] <;> nlinarith [h1]

theorem isOrtho_det_sq' {M : Mat2 α} (h : IsOrtho M) : det2 M * det2 M = 1 := by
  have := isOrtho_det_sq h
  nlinarith [this]

theorem quadForm_conj (M N : Mat2 α) (v : Vec2 α) :
    quadForm M (mulVec2 N v) = quadForm (tr2 N * M * N) v := by
  simp only [quadForm, dot2, mulVec2, tr2, Mat2.mmul_def]
  ring

theorem tr2_diag2 (s1 s2 : α) : tr2 (diag2 s1 s2) = diag2 s1 s2 := rfl

theorem flipRow1_eq (M : Mat2 α) : flipRow1 M = diag2 1 (-1) * M := by
  apply mat2_ext <;> simp [flipRow1, diag2]

theorem diagPM_mul_self : diag2 (1 : α) (-1) * diag2 1 (-1) = 1 := by
  apply mat2_ext <;> simp [diag2]

/-- Core consequence of the reflection fix in `best_fit_transform` /
`icp_point_to_point`: if `H = U diag(s1,s2) Vt` is a valid SVD of a *symmetric,
positive-semidefinite, nonzero* cross-covariance (the situation when source and
destination point sets coincide), then the determinant-corrected rotation
`R = Vtᵀ Uᵀ` (with `Vt`'s second row negated when `det < 0`) is exactly the
identity matrix. -/
theorem svdCorrected_eq_one (U Vt : Mat2 α) (s1 s2 : α) (H : Mat2 α)
    (hU : IsOrtho U) (hV : IsOrtho Vt)
    (hfac : H = U * diag2 s1 s2 * Vt)
    (hord : s2 ≤ s1) (hs2 : 0 ≤ s2) (hs1 : 0 < s1)
    (hsym : tr2 H = H) (hpsd : ∀ v, 0 ≤ quadForm H v) :
    (if det2 (tr2 Vt * tr2 U) < 0
      then tr2 (flipRow1 Vt) * tr2 U else tr2 Vt * tr2 U) = 1 := by
  set W : Mat2 α := Vt * U with hWdef
  have hVV : Vt * tr2 Vt = 1 := isOrtho_mul_tr hV
  have hWo : IsOrtho W := by
    show tr2 (Vt * U) * (Vt * U) = 1
    rw [tr2_mul, mul2_assoc, ← mul2_assoc (tr2 Vt) Vt U, hV, one2_mul]
    exact hU
  have hU2 : tr2 Vt * W = U := by
    rw [hWdef, ← mul2_assoc, hV, one2_mul]
  -- `Vt H Vtᵀ = W S` and (by symmetry of `H`) `= S Wᵀ`
  have e1 : Vt * H * tr2 Vt = W * diag2 s1 s2 := by
    rw [hfac, ← mul2_assoc, ← mul2_assoc, mul2_assoc (Vt * U * diag2 s1 s2) Vt (tr2 Vt),
      hVV, mul2_one]
  have e2 : Vt * H * tr2 Vt = diag2 s1 s2 * tr2 W := by
    conv_lhs => rw [← hsym]
    rw [hfac, tr2_mul, tr2_mul, tr2_diag2, ← mul2_assoc, ← mul2_assoc, hVV, one2_mul,
      mul2_assoc, ← tr2_mul]
  have hWS : W * diag2 s1 s2 = diag2 s1 s2 * tr2 W := by rw [← e1, e2]
  -- scalar consequence: `W.b * s2 = s1 * W.c`
  have hbc : W.b * s2 = s1 * W.c := by
    have := congrArg Mat2.b hWS
    simpa [diag2, tr2] using this
  have hcb : W.c * s1 = s2 * W.b := by
    have := congrArg Mat2.c hWS
    simpa [diag2, tr2] using this
  -- PSD transfers to `W S`
  have hpsd' : ∀ v : Vec2 α, 0 ≤ quadForm (W * diag2 s1 s2) v := by
    intro v
    have h0 := hpsd (mulVec2 (tr2 Vt) v)
    rw [quadForm_conj, tr2_tr2, e1] at h0
    exact h0
  have hq1 : 0 ≤ W.a * s1 := by
    have := hpsd' ⟨1, 0⟩
    simpa [quadForm, dot2, mulVec2, diag2] using this
  have hq2 : 0 ≤ W.d * s2 := by
    have := hpsd' ⟨0, 1⟩
    simpa [quadForm, dot2, mulVec2, diag2] using this
  obtain ⟨hw1, hw2, hw3⟩ := isOrtho_eqns hWo
  rcases isOrtho_cases hWo with ⟨hdet, hwb, hwd⟩ | ⟨hdet, hwb, hwd⟩
  · -- rotation case: `W = ±1`; PSD forces `W = 1`, no sign correction happens
    have hc0 : W.c = 0 := by
      have h' : W.c * (s1 + s2) = 0 := by
        rw [hwb] at hbc; nlinarith [hbc]
      have : s1 + s2 ≠ 0 := by positivity
      exact (mul_eq_zero.mp h').resolve_right this
    have hb0 : W.b = 0 := by rw [hwb, hc0, neg_zero]
    have ha2 : (W.a - 1) * (W.a + 1) = 0 := by nlinarith [hw1, hc0]
    rcases mul_eq_zero.mp ha2 with h' | h'
    · have haW : W.a = 1 := by linarith
      have hW1 : W = 1 := by
        apply mat2_ext <;> simp [haW, hb0, hc0, hwd, haW]
      have hU3 : U = tr2 Vt := by rw [← hU2, hW1, mul2_one]
      have hR0 : tr2 Vt * tr2 U = 1 := by rw [hU3, tr2_tr2]; exact hV
      rw [hR0, det2_one]
      simp
    · exfalso
      have haW : W.a = -1 := by linarith
      rw [haW] at hq1; nlinarith [hq1, hs1]
  · -- reflection case
    have hsplit : W.b * (s1 - s2) = 0 := by rw [hwb] at hbc ⊢; nlinarith [hbc]
    rcases mul_eq_zero.mp hsplit with hb0 | hss
    · -- off-diagonal vanishes: `W = diag(±1, ∓1)`; PSD forces `W = diag(1,-1)`,
      -- the sign correction fires and yields the identity
      have hc0 : W.c = 0 := by rw [← hwb, hb0]
      have ha2 : (W.a - 1) * (W.a + 1) = 0 := by nlinarith [hw1, hc0]
      rcases mul_eq_zero.mp ha2 with h' | h'
      · have haW : W.a = 1 := by linarith
        have hWD : W = diag2 1 (-1) := by
          apply mat2_ext <;> simp [diag2, haW, hb0, hc0, hwd]
        set D : Mat2 α := diag2 1 (-1) with hDdef
        have htrD : tr2 D = D := rfl
        have hU3 : U = tr2 Vt * D := by rw [← hU2, hWD]
        have htrU : tr2 U = D * Vt := by rw [hU3, tr2_mul, htrD, tr2_tr2]
        have hR0eq : tr2 Vt * tr2 U = tr2 Vt * (D * Vt) := by rw [htrU]
        have hdetR0 : det2 (tr2 Vt * tr2 U) = -1 := by
          rw [hR0eq, det2_mul, det2_mul, det2_tr2]
          have hDdet : det2 D = -1 := by simp [hDdef, det2, diag2]
          have := isOrtho_det_sq' hV
          rw [hDdet]; nlinarith [this]
        rw [if_pos (by rw [hdetR0]; norm_num)]
        rw [htrU, flipRow1_eq, tr2_mul, htrD, ← mul2_assoc, mul2_assoc (tr2 Vt) D D,
          diagPM_mul_self, mul2_one]
        exact hV
      · exfalso
        have haW : W.a = -1 := by linarith
        rw [haW] at hq1; nlinarith [hq1, hs1]
    · -- equal singular values with a genuine reflection: impossible for a PSD `H`
      exfalso
      have hs12 : s1 = s2 := by linarith [sub_eq_zero.mp hss]
      have ha0 : W.a = 0 := by
        rw [hwd] at hq2
        rw [← hs12] at hq2
        nlinarith [hq1, hq2, hs1]
      have hd0 : W.d = 0 := by rw [hwd, ha0, neg_zero]
      have hb2 : W.b ^ 2 = 1 := by nlinarith [hw3, hd0]
      have hq3 : 0 ≤ W.b * s1 := by
        have := hpsd' ⟨1, 1⟩
        simp only [quadForm, dot2, mulVec2, diag2, Mat2.mmul_def] at this
        rw [← hwb] at this
        nlinarith [this, ha0, hd0, hs12, hwb]
      have hq4 : W.b * s1 ≤ 0 := by
        have := hpsd' ⟨1, -1⟩
        simp only [quadForm, dot2, mulVec2, diag2, Mat2.mmul_def] at this
        nlinarith [this, ha0, hd0, hs12, hwb]
      have : W.b = 0 := by nlinarith [hq3, hq4, hs1]
      nlinarith [hb2, this]

end Algebra

/-- First index of `x` in `l` (Python `list.index`); `l.length` when absent. -/
def firstIdx {β : Type} [DecidableEq β] : List β → β → ℕ
  | [], _ => 0
  | y :: ys, x => if y = x then 0 else firstIdx ys x + 1

section ICP

variable {α : Type} [LinearOrderedField α] [FloorRing α]

/-- Minimum of a list (`np.min`); `0` on the empty list (unused there). -/
def listMin (l : List α) : α := l.foldl min (l.headD 0)

/-- Maximum of a list (`np.max`); `0` on the empty list (unused there). -/
def listMax (l : List α) : α := l.foldl max (l.headD 0)

/-- First index attaining the minimum (`np.argmin` / `cKDTree.query`). -/
def argminIdx (l : List α) : ℕ := firstIdx l (listMin l)

/-- Arithmetic mean (`np.mean`). -/
def listMean (l : List α) : α := l.sum / (l.length : α)

/-- Linear interpolation between the two bracketing order statistics of a
sorted sample `s` of size `n` at fractional rank `h`. -/
def qLerp (s : List α) (n : ℕ) (h : α) : α :=
  s.getD (⌊h⌋).toNat 0 +
    (h - (⌊h⌋ : ℤ)) * (s.getD (min ((⌊h⌋).toNat + 1) (n - 1)) 0 - s.getD (⌊h⌋).toNat 0)

/-- Numpy `np.quantile` with its default linear interpolation, on the sorted data. -/
def npQuantile (l : List α) (q : α) : α :=
  qLerp (List.insertionSort (fun a b => a ≤ b) l) l.length (q * ((l.length : α) - 1))

/-- Boolean-mask selection, numpy's `xs[mask]`. -/
def maskFilter {β : Type} (mask : List Bool) (xs : List β) : List β :=
  (mask.zip xs).filterMap (fun p => if p.1 then some p.2 else none)

/-- Number of `true` entries, numpy's `np.sum(mask)`. -/
def countT (mask : List Bool) : ℕ := (mask.filter id).length

/-- The list of squared nearest-neighbour distances of each `src` point into
`dst` (`nearest_neighbors` in `Lidar_pose.py`, `cKDTree.query` in
`slam_map.py`; the scan matchers compare and average them, never individual
coordinates, so squared distances with squared thresholds give the same
control flow). -/
def nnDists (src dst : List (Vec2 α)) : List α :=
  src.map (fun p => listMin (dst.map (dist2 p)))

/-- The matched destination points `dst[indices]`. -/
def nnMatched (src dst : List (Vec2 α)) : List (Vec2 α) :=
  src.map (fun p => dst.getD (argminIdx (dst.map (dist2 p))) ⟨0, 0⟩)

/-- The `np.linalg.svd` oracle: maps a 2×2 matrix to `(U, (s1, s2), Vt)`.
Its defining properties are stated as hypotheses (`ValidSVDAt`) where needed. -/
def SvdFun (α : Type) : Type := Mat2 α → Mat2 α × (α × α) × Mat2 α

/-- Predicate: `f` returns a genuine singular value decomposition at matrix `H`:
orthogonal factors, `H = U diag(s1,s2) Vt`, singular values descending and
nonnegative. -/
def ValidSVDAt (f : SvdFun α) (H : Mat2 α) : Prop :=
  IsOrtho (f H).1 ∧ IsOrtho (f H).2.2 ∧
    H = (f H).1 * diag2 (f H).2.1.1 (f H).2.1.2 * (f H).2.2 ∧
    (f H).2.1.2 ≤ (f H).2.1.1 ∧ 0 ≤ (f H).2.1.2

instance (f : SvdFun α) (H : Mat2 α) : Decidable (ValidSVDAt f H) := by
  unfold ValidSVDAt IsOrtho; infer_instance

/-- Mean of each coordinate (`np.mean(A, axis=0)`). -/
def centroid2 (l : List (Vec2 α)) : Vec2 α :=
  ⟨listMean (l.map Vec2.x), listMean (l.map Vec2.y)⟩

/-- Cross-covariance `AAᵀ @ BB = Σᵢ aᵢ bᵢᵀ` of two (demeaned) point lists. -/
def covSum (A B : List (Vec2 α)) : Mat2 α :=
  (A.zip B).foldl (fun M p => M + outer2 p.1 p.2) 0

/-- The matrix `H = (A - centroid_A).T @ (B - centroid_B)` built inside
`best_fit_transform`. -/
def crossCov (A B : List (Vec2 α)) : Mat2 α :=
  covSum (A.map (fun p => p - centroid2 A)) (B.map (fun p => p - centroid2 B))

/-- The rotation part of `best_fit_transform`: `R = Vt.T @ U.T` from the SVD
oracle at `H`, with `Vt`'s second row negated and `R` rebuilt whenever
`det(R) < 0`. -/
def bfRot (svd : SvdFun α) (H : Mat2 α) : Mat2 α :=
  if det2 (tr2 (svd H).2.2 * tr2 (svd H).1) < 0
  then tr2 (flipRow1 (svd H).2.2) * tr2 (svd H).1
  else tr2 (svd H).2.2 * tr2 (svd H).1

/-- Function `best_fit_transform(A, B)` of `Lidar_pose.py` (identically, the inline
Kabsch solve of `icp_point_to_point` in `slam_map.py`): centre both sets,
factor the cross-covariance with the SVD oracle, correct a reflection by
negating the second row of `Vt`, and derive `t = centroid_B - R @ centroid_A`. -/
def best_fit_transform (svd : SvdFun α) (A B : List (Vec2 α)) : Mat2 α × Vec2 α :=
  (bfRot svd (crossCov A B),
   centroid2 B - mulVec2 (bfRot svd (crossCov A B)) (centroid2 A))

/-- A 3×3 homogeneous SE(2) transform `[[R, t], [0, 1]]`, as the `T` / `R_h`
matrices of `icp_2d`. -/
structure Aff (α : Type) where
  R : Mat2 α
  t : Vec2 α
deriving DecidableEq, Repr

/-- Identity transform `np.eye(3)`. -/
def affId : Aff α := ⟨1, 0⟩

/-- Homogeneous product `R_h @ T`. -/
def affComp (B A : Aff α) : Aff α := ⟨B.R * A.R, mulVec2 B.R A.t + B.t⟩

/-- Apply a homogeneous transform to a point. -/
def affApply (T : Aff α) (p : Vec2 α) : Vec2 α := mulVec2 T.R p + T.t

/-- Application `(R_h @ src_h.T).T[:, :2]`. -/
def affApplyPts (T : Aff α) (pts : List (Vec2 α)) : List (Vec2 α) :=
  pts.map (affApply T)

/-- Loop state of `icp_2d`: accumulated transform `T` and the working point
set `src_transformed`. -/
structure ICPState (α : Type) where
  T : Aff α
  src : List (Vec2 α)
deriving DecidableEq, Repr

/-- One iteration of the `icp_2d` loop body (`Lidar_pose.py` lines 323-353):
nearest neighbours, quantile outlier rejection with fallback below 3
correspondences, best-fit solve, accumulation `T = R_h @ T`, and — exactly as
the source does — application of `R_h` to the *original* `src_h`, not to the
updated set.  Returns the new state and the iteration's mean error. -/
def icp2dStep (svd : SvdFun α) (srcOrig dst : List (Vec2 α)) (q : α)
    (st : ICPState α) : ICPState α × α :=
  let dists := nnDists st.src dst
  let matched := nnMatched st.src dst
  let sel :=
    if 0 < q ∧ q < 1 then
      let thresh := npQuantile dists q
      let mask := dists.map (fun d => decide (d ≤ thresh))
      if 3 ≤ countT mask then
        (maskFilter mask st.src, maskFilter mask matched, maskFilter mask dists)
      else (st.src, matched, dists)
    else (st.src, matched, dists)
  let Rt := best_fit_transform svd sel.1 sel.2.1
  (⟨affComp ⟨Rt.1, Rt.2⟩ st.T, affApplyPts ⟨Rt.1, Rt.2⟩ srcOrig⟩, listMean sel.2.2)

/-- Convergence test `abs(prev_error - mse) < tolerance`; `none` models the
initial `float("inf")`, for which the test is always false. -/
def convTol (prev : Option α) (e tol : α) : Bool :=
  match prev with
  | none => false
  | some p => decide (|p - e| < tol)

/-- The `icp_2d` iteration loop; `fuel` counts the remaining iterations and
`i` the completed ones. -/
def icp2dGo (svd : SvdFun α) (srcOrig dst : List (Vec2 α)) (tol q : α) :
    ℕ → ℕ → ICPState α → Option α → Aff α × Option α × ℕ
  | 0, i, st, prev => (st.T, prev, i)
  | fuel + 1, i, st, prev =>
    let r := icp2dStep svd srcOrig dst q st
    if convTol prev r.2 tol then (r.1.T, some r.2, i + 1)
    else icp2dGo svd srcOrig dst tol q fuel (i + 1) r.1 (some r.2)

/-- Function `icp_2d(src, dst, max_iterations, tolerance, reject_outlier_quantile)` of
`Lidar_pose.py`.  The error component is `Option`-valued: `none` models
`float("inf")`. -/
def icp_2d (svd : SvdFun α) (src dst : List (Vec2 α)) (maxIterations : ℕ)
    (tol q : α) : Aff α × Option α × ℕ :=
  icp2dGo svd src dst tol q maxIterations 0 ⟨affId, src⟩ none

/-- Loop state of `icp_point_to_point` (`slam_map.py`): working source set and
accumulated `(T_R, T_t)`. -/
structure PPState (α : Type) where
  src : List (Vec2 α)
  TR : Mat2 α
  Tt : Vec2 α
deriving DecidableEq, Repr

/-- The `icp_point_to_point` iteration loop (`slam_map.py` lines 103-143).
The correspondence gate compares squared distances against the squared
`max_correspondence_dist` — equivalent to the source's euclidean comparison —
and aborts with `(eye(2), zeros(2), inf)` when fewer than 6 correspondences
pass.  The returned error is `Option`-valued (`none` = `np.inf`). -/
def icpPPGo (svd : SvdFun α) (dst : List (Vec2 α)) (maxd tol : α) :
    ℕ → PPState α → Option α → Mat2 α × Vec2 α × Option α
  | 0, st, prev => (st.TR, st.Tt, prev)
  | fuel + 1, st, prev =>
    let dists := nnDists st.src dst
    let matched := nnMatched st.src dst
    let mask := dists.map (fun d => decide (d < maxd * maxd))
    if countT mask < 6 then (1, 0, none)
    else
      let Rt := best_fit_transform svd (maskFilter mask st.src) (maskFilter mask matched)
      let src' := st.src.map (fun p => mulVec2 Rt.1 p + Rt.2)
      let TR' := Rt.1 * st.TR
      let Tt' := mulVec2 Rt.1 st.Tt + Rt.2
      let me := listMean (maskFilter mask dists)
      if convTol prev me tol then (TR', Tt', prev)
      else icpPPGo svd dst maxd tol fuel ⟨src', TR', Tt'⟩ (some me)

/-- Function `icp_point_to_point(src_pts, dst_pts, max_iters, tol,
max_correspondence_dist)` of `slam_map.py`. -/
def icp_point_to_point (svd : SvdFun α) (src dst : List (Vec2 α))
    (maxIters : ℕ) (tol maxd : α) : Mat2 α × Vec2 α × Option α :=
  icpPPGo svd dst maxd tol maxIters ⟨src, 1, 0⟩ none

/-- Function `transform_points(pts, R, t)` of `slam_map.py`. -/
def transform_points (pts : List (Vec2 α)) (R : Mat2 α) (t : Vec2 α) :
    List (Vec2 α) :=
  pts.map (fun p => mulVec2 R p + t)

/-- Function `compose_transform(R2, t2, R1, t1)` of `slam_map.py`. -/
def compose_transform (R2 : Mat2 α) (t2 : Vec2 α) (R1 : Mat2 α) (t1 : Vec2 α) :
    Mat2 α × Vec2 α :=
  (R2 * R1, mulVec2 R2 t1 + t2)

/-- The pose-chain update of `slam_map.main`:
`R_new, t_new = compose_transform(R_prev, t_prev, R_rel, t_rel)` — previous
absolute pose first, relative transform second. -/
def poseChainStep (prev rel : Mat2 α × Vec2 α) : Mat2 α × Vec2 α :=
  compose_transform prev.1 prev.2 rel.1 rel.2

end ICP

section ListLemmas

variable {α : Type} [LinearOrderedField α] [FloorRing α]

theorem vec2_ext {v w : Vec2 α} (hx : v.x = w.x) (hy : v.y = w.y) : v = w := by
  cases v; cases w; simp_all

theorem mulVec2_one (v : Vec2 α) : mulVec2 1 v = v := by
  cases v; simp [mulVec2]

theorem vec2_add_zero (v : Vec2 α) : v + 0 = v := by
  cases v; simp

theorem dist2_self (p : Vec2 α) : dist2 p p = 0 := by simp [dist2]

theorem dist2_nonneg (p q : Vec2 α) : 0 ≤ dist2 p q := by
  unfold dist2; positivity

theorem eq_of_dist2_zero {p q : Vec2 α} (h : dist2 p q = 0) : q = p := by
  unfold dist2 at h
  have h1 : (p.x - q.x) ^ 2 = 0 := by
    nlinarith [sq_nonneg (p.x - q.x), sq_nonneg (p.y - q.y)]
  have h2 : (p.y - q.y) ^ 2 = 0 := by
    nlinarith [sq_nonneg (p.x - q.x), sq_nonneg (p.y - q.y)]
  have hx := sub_eq_zero.mp (sq_eq_zero_iff.mp h1)
  have hy := sub_eq_zero.mp (sq_eq_zero_iff.mp h2)
  exact vec2_ext hx.symm hy.symm

theorem foldl_min_le_init (a : α) (l : List α) : l.foldl min a ≤ a := by
  induction l generalizing a with
  | nil => simp
  | cons x xs ih =>
    simp only [List.foldl_cons]
    exact le_trans (ih (min a x)) (min_le_left a x)

theorem foldl_min_le_mem (a : α) (l : List α) : ∀ x ∈ l, l.foldl min a ≤ x := by
  induction l generalizing a with
  | nil => simp
  | cons y ys ih =>
    intro x hx
    rcases List.mem_cons.mp hx with h | h
    · subst h
      simp only [List.foldl_cons]
      exact le_trans (foldl_min_le_init _ _) (min_le_right a x)
    · exact ih (min a y) x h

theorem foldl_min_mem (a : α) (l : List α) : l.foldl min a = a ∨ l.foldl min a ∈ l := by
  induction l generalizing a with
  | nil => left; rfl
  | cons y ys ih =>
    simp only [List.foldl_cons]
    rcases ih (min a y) with h | h
    · rcases min_choice a y with h2 | h2
      · left; rw [h, h2]
      · right; rw [h, h2]; exact List.mem_cons_self y ys
    · right; exact List.mem_cons_of_mem _ h

theorem listMin_le {l : List α} : ∀ x ∈ l, listMin l ≤ x :=
  foldl_min_le_mem _ _

theorem listMin_mem {l : List α} (h : l ≠ []) : listMin l ∈ l := by
  rcases foldl_min_mem (l.headD 0) l with h' | h'
  · unfold listMin
    rw [h']
    cases l with
    | nil => exact absurd rfl h
    | cons x xs => exact List.mem_cons_self x xs
  · exact h'

theorem firstIdx_lt_length {β : Type} [DecidableEq β] {l : List β} {x : β}
    (h : x ∈ l) : firstIdx l x < l.length := by
  induction l with
  | nil => simp at h
  | cons y ys ih =>
    simp only [firstIdx]
    by_cases hy : y = x
    · simp [hy]
    · rw [if_neg hy]
      have hx : x ∈ ys := by
        rcases List.mem_cons.mp h with h' | h'
        · exact absurd h'.symm hy
        · exact h'
      simpa [Nat.succ_lt_succ_iff] using ih hx

theorem firstIdx_getD {β : Type} [DecidableEq β] {l : List β} {x : β}
    (h : x ∈ l) (d : β) : l.getD (firstIdx l x) d = x := by
  induction l with
  | nil => simp at h
  | cons y ys ih =>
    simp only [firstIdx]
    by_cases hy : y = x
    · simp [hy]
    · rw [if_neg hy]
      have hx : x ∈ ys := by
        rcases List.mem_cons.mp h with h' | h'
        · exact absurd h'.symm hy
        · exact h'
      simpa using ih hx

theorem getD_map_lt {β γ : Type} (f : β → γ) {l : List β} {i : ℕ}
    (h : i < l.length) (d : β) (dd : γ) :
    (l.map f).getD i dd = f (l.getD i d) := by
  induction l generalizing i with
  | nil => simp at h
  | cons x xs ih =>
    cases i with
    | zero => simp
    | succ n =>
      simp only [List.map_cons, List.getD_cons_succ]
      exact ih (by simpa [Nat.succ_lt_succ_iff] using h)

theorem getD_zero_of_all {l : List α} (h : ∀ x ∈ l, x = 0) (i : ℕ) :
    l.getD i 0 = 0 := by
  by_cases hi : i < l.length
  · have hmem : l.getD i 0 ∈ l := by
      rw [List.getD_eq_getElem l 0 hi]
      exact List.getElem_mem hi
    exact h _ hmem
  · exact List.getD_eq_default l 0 (by omega)

theorem map_eq_self_of_eq {β : Type} {l : List β} {f : β → β}
    (h : ∀ x ∈ l, f x = x) : l.map f = l := by
  induction l with
  | nil => rfl
  | cons x xs ih =>
    simp only [List.map_cons]
    rw [h x (List.mem_cons_self x xs), ih (fun y hy => h y (List.mem_cons_of_mem _ hy))]

theorem npQuantile_zero {l : List α} (q : α) (h : ∀ x ∈ l, x = 0) :
    npQuantile l q = 0 := by
  have hs : ∀ x ∈ List.insertionSort (fun a b => a ≤ b) l, x = 0 := fun x hx =>
    h x ((List.perm_insertionSort _ l).mem_iff.mp hx)
  unfold npQuantile qLerp
  rw [getD_zero_of_all hs, getD_zero_of_all hs]
  ring

theorem listMean_zero {l : List α} (h : ∀ x ∈ l, x = 0) : listMean l = 0 := by
  unfold listMean
  rw [List.sum_eq_zero h, zero_div]

theorem maskFilter_all_true {β : Type} {mask : List Bool} {xs : List β}
    (hlen : mask.length = xs.length) (hall : ∀ b ∈ mask, b = true) :
    maskFilter mask xs = xs := by
  induction mask generalizing xs with
  | nil =>
    cases xs with
    | nil => rfl
    | cons _ _ => simp at hlen
  | cons b bs ih =>
    cases xs with
    | nil => simp at hlen
    | cons x xs' =>
      have hb : b = true := hall b (List.mem_cons_self b bs)
      subst hb
      show ((true, x) :: bs.zip xs').filterMap
          (fun p => if p.1 then some p.2 else none) = x :: xs'
      rw [List.filterMap_cons]
      simp only [if_pos]
      rw [show (bs.zip xs').filterMap (fun p => if p.1 then some p.2 else none) =
            maskFilter bs xs' from rfl]
      rw [ih (by simpa using hlen) (fun c hc => hall c (List.mem_cons_of_mem _ hc))]

theorem nnDists_self_zero {P : List (Vec2 α)} : ∀ x ∈ nnDists P P, x = 0 := by
  intro x hx
  rcases List.mem_map.mp hx with ⟨p, hp, rfl⟩
  have hmem : (0 : α) ∈ P.map (dist2 p) :=
    List.mem_map.mpr ⟨p, hp, dist2_self p⟩
  have h1 : listMin (P.map (dist2 p)) ≤ 0 := listMin_le _ hmem
  have h2 : 0 ≤ listMin (P.map (dist2 p)) := by
    have hne : P.map (dist2 p) ≠ [] := List.ne_nil_of_mem hmem
    rcases List.mem_map.mp (listMin_mem hne) with ⟨q, _, heq⟩
    rw [← heq]
    exact dist2_nonneg p q
  linarith

theorem nnMatched_self {P : List (Vec2 α)} : nnMatched P P = P := by
  unfold nnMatched
  apply map_eq_self_of_eq
  intro p hp
  have hminz : listMin (P.map (dist2 p)) = 0 := by
    have : listMin (P.map (dist2 p)) ∈ nnDists P P :=
      List.mem_map.mpr ⟨p, hp, rfl⟩
    exact nnDists_self_zero _ this
  have hmem0 : (0 : α) ∈ P.map (dist2 p) :=
    List.mem_map.mpr ⟨p, hp, dist2_self p⟩
  have hjlt : argminIdx (P.map (dist2 p)) < P.length := by
    have := firstIdx_lt_length hmem0
    unfold argminIdx
    rw [hminz]
    simpa using this
  have hgd : (P.map (dist2 p)).getD (argminIdx (P.map (dist2 p))) 0 = 0 := by
    unfold argminIdx
    rw [hminz]
    exact firstIdx_getD hmem0 0
  rw [getD_map_lt (dist2 p) hjlt ⟨0, 0⟩ 0] at hgd
  exact eq_of_dist2_zero hgd

theorem add2_zero (M : Mat2 α) : M + 0 = M := by
  apply mat2_ext <;> simp

theorem zero2_add (M : Mat2 α) : (0 : Mat2 α) + M = M := by
  apply mat2_ext <;> simp

theorem add2_assoc (M N P : Mat2 α) : M + N + P = M + (N + P) := by
  apply mat2_ext <;> simp <;> ring

theorem foldl_add_shift {β : Type} (g : β → Mat2 α) (l : List β) (init : Mat2 α) :
    l.foldl (fun M p => M + g p) init = init + l.foldl (fun M p => M + g p) 0 := by
  induction l generalizing init with
  | nil => simp [add2_zero]
  | cons x xs ih =>
    simp only [List.foldl_cons]
    rw [ih (init + g x), ih (0 + g x), zero2_add, add2_assoc]

theorem covSum_cons (x y : Vec2 α) (xs ys : List (Vec2 α)) :
    covSum (x :: xs) (y :: ys) = outer2 x y + covSum xs ys := by
  show (xs.zip ys).foldl (fun M p => M + outer2 p.1 p.2) (0 + outer2 x y) = _
  rw [foldl_add_shift, zero2_add]
  rfl

theorem quadForm_add (M N : Mat2 α) (v : Vec2 α) :
    quadForm (M + N) v = quadForm M v + quadForm N v := by
  simp only [quadForm, dot2, mulVec2, Mat2.madd_def]
  ring

theorem quadForm_outer_self (x v : Vec2 α) :
    quadForm (outer2 x x) v = dot2 x v ^ 2 := by
  simp only [quadForm, dot2, mulVec2, outer2]
  ring

theorem quadForm_zero (v : Vec2 α) : quadForm (0 : Mat2 α) v = 0 := by
  simp [quadForm, dot2, mulVec2]

theorem covSum_self_psd (l : List (Vec2 α)) (v : Vec2 α) :
    0 ≤ quadForm (covSum l l) v := by
  induction l with
  | nil => rw [show covSum ([] : List (Vec2 α)) [] = 0 from rfl, quadForm_zero]
  | cons x xs ih =>
    rw [covSum_cons, quadForm_add, quadForm_outer_self]
    have := sq_nonneg (dot2 x v)
    linarith

theorem tr2_add (M N : Mat2 α) : tr2 (M + N) = tr2 M + tr2 N := by
  apply mat2_ext <;> simp [tr2]

theorem tr2_zero : tr2 (0 : Mat2 α) = 0 := rfl

theorem tr2_outer_self (x : Vec2 α) : tr2 (outer2 x x) = outer2 x x := by
  apply mat2_ext <;> simp [tr2, outer2] <;> ring

theorem covSum_self_symm (l : List (Vec2 α)) : tr2 (covSum l l) = covSum l l := by
  induction l with
  | nil => rfl
  | cons x xs ih => rw [covSum_cons, tr2_add, tr2_outer_self, ih]

theorem mul2_zero (M : Mat2 α) : M * (0 : Mat2 α) = 0 := by
  apply mat2_ext <;> simp

theorem zero2_mul (M : Mat2 α) : (0 : Mat2 α) * M = 0 := by
  apply mat2_ext <;> simp

/-- A valid SVD of a nonzero matrix has a strictly positive top singular
value. -/
theorem svd_s1_pos {f : SvdFun α} {H : Mat2 α} (hv : ValidSVDAt f H)
    (hH : H ≠ 0) : 0 < (f H).2.1.1 := by
  obtain ⟨_, _, hfac, hord, hs2⟩ := hv
  rcases lt_or_eq_of_le (le_trans hs2 hord) with h | h
  · exact h
  · exfalso
    apply hH
    have hz2 : (f H).2.1.2 = 0 := le_antisymm (h ▸ hord) hs2
    rw [hfac, ← h, hz2]
    rw [show diag2 (0 : α) 0 = 0 from rfl, mul2_zero, zero2_mul]

theorem vec2_sub_self (v : Vec2 α) : v - v = 0 := by
  cases v; simp

/-- With identical source and destination the corrected best-fit rotation is
exactly the identity (under the SVD contract, pinned to `(I, 0, I)` on the
zero matrix as LAPACK produces). -/
theorem bfRot_self (svd : SvdFun α) (P : List (Vec2 α))
    (hsvd : ValidSVDAt svd (crossCov P P))
    (hz : crossCov P P = 0 → svd (crossCov P P) = (1, (0, 0), 1)) :
    bfRot svd (crossCov P P) = 1 := by
  by_cases hH : crossCov P P = 0
  · unfold bfRot
    rw [hz hH]
    show (if det2 (tr2 1 * tr2 1) < 0 then _ else tr2 (1 : Mat2 α) * tr2 (1 : Mat2 α)) = 1
    rw [show tr2 (1 : Mat2 α) = 1 from rfl, mul2_one, det2_one, if_neg (by norm_num)]
  · obtain ⟨hU, hV, hfac, hord, hs2⟩ := hsvd
    have hs1 : 0 < (svd (crossCov P P)).2.1.1 := svd_s1_pos ⟨hU, hV, hfac, hord, hs2⟩ hH
    have hsym : tr2 (crossCov P P) = crossCov P P := covSum_self_symm _
    have hpsd : ∀ v, 0 ≤ quadForm (crossCov P P) v := covSum_self_psd _
    exact svdCorrected_eq_one _ _ _ _ _ hU hV hfac hord hs2 hs1 hsym hpsd

theorem best_fit_transform_self (svd : SvdFun α) (P : List (Vec2 α))
    (hsvd : ValidSVDAt svd (crossCov P P))
    (hz : crossCov P P = 0 → svd (crossCov P P) = (1, (0, 0), 1)) :
    best_fit_transform svd P P = (1, 0) := by
  unfold best_fit_transform
  rw [bfRot_self svd P hsvd hz, mulVec2_one, vec2_sub_self]

theorem affComp_one (T : Aff α) : affComp ⟨1, 0⟩ T = T := by
  unfold affComp
  rw [one2_mul, mulVec2_one, vec2_add_zero]

theorem affApplyPts_one (P : List (Vec2 α)) : affApplyPts ⟨1, 0⟩ P = P := by
  unfold affApplyPts
  apply map_eq_self_of_eq
  intro p _
  unfold affApply
  rw [mulVec2_one, vec2_add_zero]

/-- One `icp_2d` iteration on identical source and destination clouds leaves
the state unchanged and reports zero mean error. -/
theorem icp2dStep_self (svd : SvdFun α) (P : List (Vec2 α)) (T : Aff α) (q : α)
    (hsvd : ValidSVDAt svd (crossCov P P))
    (hz : crossCov P P = 0 → svd (crossCov P P) = (1, (0, 0), 1)) :
    icp2dStep svd P P q ⟨T, P⟩ = (⟨T, P⟩, 0) := by
  have hdz : ∀ x ∈ nnDists P P, x = 0 := nnDists_self_zero
  have hthresh : npQuantile (nnDists P P) q = 0 := npQuantile_zero q hdz
  have hmask : ∀ b ∈ (nnDists P P).map
      (fun d => decide (d ≤ npQuantile (nnDists P P) q)), b = true := by
    intro b hb
    rcases List.mem_map.mp hb with ⟨d, hd, rfl⟩
    rw [hthresh, hdz d hd]
    simp
  have hlenD : ((nnDists P P).map
      (fun d => decide (d ≤ npQuantile (nnDists P P) q))).length =
      (nnDists P P).length := List.length_map _ _
  have hlenP : (nnDists P P).length = P.length := List.length_map _ _
  have hfD := maskFilter_all_true hlenD hmask
  have hlen2 : ((nnDists P P).map
      (fun d => decide (d ≤ npQuantile (nnDists P P) q))).length = P.length := by
    rw [hlenD, hlenP]
  have hfP := maskFilter_all_true hlen2 hmask
  simp only [icp2dStep, nnMatched_self]
  simp only [hfD, hfP, ite_self]
  simp only [best_fit_transform_self svd P hsvd hz, affComp_one, affApplyPts_one,
    listMean_zero hdz]

theorem isOrtho_mul {M N : Mat2 α} (hM : IsOrtho M) (hN : IsOrtho N) :
    IsOrtho (M * N) := by
  show tr2 (M * N) * (M * N) = 1
  rw [tr2_mul, mul2_assoc, ← mul2_assoc (tr2 M) M N, hM, one2_mul]
  exact hN

theorem isOrtho_tr2 {M : Mat2 α} (h : IsOrtho M) : IsOrtho (tr2 M) := by
  show tr2 (tr2 M) * tr2 M = 1
  rw [tr2_tr2]
  exact isOrtho_mul_tr h

theorem det2_flipRow1 (M : Mat2 α) : det2 (flipRow1 M) = -det2 M := by
  simp [det2, flipRow1]; ring

theorem isOrtho_diagPM : IsOrtho (diag2 (1 : α) (-1)) := by
  show tr2 (diag2 (1 : α) (-1)) * diag2 (1 : α) (-1) = 1
  apply mat2_ext <;> simp [tr2, diag2]

theorem map_congr' {β γ : Type} {l : List β} {f g : β → γ}
    (h : ∀ x ∈ l, f x = g x) : l.map f = l.map g := by
  induction l with
  | nil => rfl
  | cons x xs ih =>
    simp only [List.map_cons]
    rw [h x (List.mem_cons_self x xs), ih (fun y hy => h y (List.mem_cons_of_mem _ hy))]

end ListLemmas

section ClaimsICP

variable {α : Type} [LinearOrderedField α] [FloorRing α]

/-- The SVD oracle value LAPACK returns on degenerate inputs used in the
concrete evaluations below: `U = I`, singular values `0`, `Vt = I` (this is a
valid SVD of the zero matrix, the only matrix it is applied to there). -/
def svdTriv : SvdFun ℚ := fun _ => (1, (0, 0), 1)

/-- Claim C1: for every pair of equal-length, non-empty 2D point sets, the
rotation `R` produced by `best_fit_transform` satisfies `Rᵀ R = I` and
`det R = +1`, never `-1`: whenever the raw SVD factorisation yields a
reflection, the sign correction is applied so the returned rotation is a
proper rotation.  The SVD oracle is only assumed to return orthogonal
factors. -/
theorem C1_best_fit_rotation_proper (svd : SvdFun α) (A B : List (Vec2 α))
    (hne : A ≠ []) (hlen : A.length = B.length)
    (hU : IsOrtho (svd (crossCov A B)).1)
    (hV : IsOrtho (svd (crossCov A B)).2.2) :
    tr2 (best_fit_transform svd A B).1 * (best_fit_transform svd A B).1 = 1 ∧
    det2 (best_fit_transform svd A B).1 = 1 := by
  show tr2 (bfRot svd (crossCov A B)) * bfRot svd (crossCov A B) = 1 ∧
    det2 (bfRot svd (crossCov A B)) = 1
  have hR0 : IsOrtho (tr2 (svd (crossCov A B)).2.2 * tr2 (svd (crossCov A B)).1) :=
    isOrtho_mul (isOrtho_tr2 hV) (isOrtho_tr2 hU)
  have hdsq := isOrtho_det_sq' hR0
  unfold bfRot
  by_cases hc : det2 (tr2 (svd (crossCov A B)).2.2 * tr2 (svd (crossCov A B)).1) < 0
  · rw [if_pos hc]
    have hFlip : IsOrtho (flipRow1 (svd (crossCov A B)).2.2) := by
      rw [flipRow1_eq]
      exact isOrtho_mul isOrtho_diagPM hV
    constructor
    · exact isOrtho_mul (isOrtho_tr2 hFlip) (isOrtho_tr2 hU)
    · have hdm1 : det2 (tr2 (svd (crossCov A B)).2.2 * tr2 (svd (crossCov A B)).1) = -1 := by
        have h0 : (det2 (tr2 (svd (crossCov A B)).2.2 * tr2 (svd (crossCov A B)).1) - 1) *
            (det2 (tr2 (svd (crossCov A B)).2.2 * tr2 (svd (crossCov A B)).1) + 1) = 0 := by
          nlinarith [hdsq]
        rcases mul_eq_zero.mp h0 with h' | h' <;> [linarith; linarith]
      rw [det2_mul, det2_tr2, det2_flipRow1, det2_tr2]
      rw [det2_mul, det2_tr2, det2_tr2] at hdm1
      linarith [hdm1]
  · rw [if_neg hc]
    refine ⟨hR0, ?_⟩
    push_neg at hc
    have h0 : (det2 (tr2 (svd (crossCov A B)).2.2 * tr2 (svd (crossCov A B)).1) - 1) *
        (det2 (tr2 (svd (crossCov A B)).2.2 * tr2 (svd (crossCov A B)).1) + 1) = 0 := by
      nlinarith [hdsq]
    rcases mul_eq_zero.mp h0 with h' | h' <;> [linarith; linarith]

/-- Witness for C1 at a concrete input. -/
theorem C1_best_fit_rotation_proper_witness :
    tr2 (best_fit_transform svdTriv [(⟨0, 0⟩ : Vec2 ℚ)] [⟨5, 7⟩]).1 *
      (best_fit_transform svdTriv [(⟨0, 0⟩ : Vec2 ℚ)] [⟨5, 7⟩]).1 = 1 ∧
    det2 (best_fit_transform svdTriv [(⟨0, 0⟩ : Vec2 ℚ)] [⟨5, 7⟩]).1 = 1 :=
  C1_best_fit_rotation_proper svdTriv [⟨0, 0⟩] [⟨5, 7⟩]
    (by with_unfolding_all decide) (by with_unfolding_all decide) (by with_unfolding_all decide) (by with_unfolding_all decide)

/-- Claim C2 (amended): registering a non-empty point cloud `P` against an
identical copy of itself with `Lidar_pose.icp_2d` yields exactly the identity
transform, zero residual error, and 2 iterations, for any tolerance `> 0` and
iteration budget `≥ 2` (the defaults are `1e-5` and `50`), under the SVD
contract (pinned to `(I, 0, I)` on the zero matrix, as LAPACK returns).
`slam_map.icp_point_to_point`, by contrast, aborts with infinite error on
clouds with fewer than 6 points — see the counterexample. -/
theorem C2_icp2d_self_identity (svd : SvdFun α) (P : List (Vec2 α))
    (hne : P ≠ []) (maxIter : ℕ) (hm : 2 ≤ maxIter) (tol : α) (htol : 0 < tol)
    (hsvd : ValidSVDAt svd (crossCov P P))
    (hz : crossCov P P = 0 → svd (crossCov P P) = (1, (0, 0), 1)) :
    icp_2d svd P P maxIter tol (95 / 100) = (affId, some 0, 2) := by
  obtain ⟨m, rfl⟩ : ∃ m, maxIter = m + 2 := ⟨maxIter - 2, by omega⟩
  have hc1 : convTol (none : Option α) 0 tol = false := rfl
  have hc2 : convTol (some (0 : α)) 0 tol = true := by
    unfold convTol
    simp only [sub_zero, abs_zero, decide_eq_true_eq]
    exact htol
  unfold icp_2d
  rw [show m + 2 = (m + 1) + 1 by omega]
  simp only [icp2dGo, icp2dStep_self svd P affId (95 / 100) hsvd hz, hc1, hc2]
  simp

/-- Witness for C2 on a concrete 3-point cloud whose self cross-covariance is
`diag(2, 6)`, with the matching concrete SVD oracle. -/
def svdC2 : SvdFun ℚ := fun _ => (⟨0, 1, 1, 0⟩, (6, 2), ⟨0, 1, 1, 0⟩)

theorem C2_icp2d_self_identity_witness :
    icp_2d svdC2 [(⟨0, 0⟩ : Vec2 ℚ), ⟨2, 0⟩, ⟨1, 3⟩]
      [(⟨0, 0⟩ : Vec2 ℚ), ⟨2, 0⟩, ⟨1, 3⟩] 50 (1 / 100000) (95 / 100) =
      (affId, some 0, 2) :=
  C2_icp2d_self_identity svdC2 [⟨0, 0⟩, ⟨2, 0⟩, ⟨1, 3⟩] (by with_unfolding_all decide) 50 (by norm_num)
    (1 / 100000) (by norm_num) (by with_unfolding_all decide) (fun h => absurd h (by with_unfolding_all decide))

/-- Counterexample for C2 as frozen: `slam_map.icp_point_to_point` (one of the
cited scan matchers) on a 3-point cloud and an identical copy of itself does
not return zero residual error — its correspondence gate needs 6 matches, so
it aborts with identity and *infinite* error (`none` models `np.inf`). -/
theorem C2_counterexample_pp_small_cloud :
    icp_point_to_point svdTriv [(⟨0, 0⟩ : Vec2 ℚ), ⟨1, 0⟩, ⟨0, 1⟩]
      [(⟨0, 0⟩ : Vec2 ℚ), ⟨1, 0⟩, ⟨0, 1⟩] 40 (1 / 10000) 1000 = (1, 0, none) ∧
    (none : Option ℚ) ≠ some 0 := by
  constructor
  · with_unfolding_all decide
  · with_unfolding_all decide

/-- Claim C3 (amended): whenever an iteration of `slam_map.icp_point_to_point`
has fewer than 6 correspondences inside the max-correspondence-distance gate
(in particular, whenever it has fewer than 3), the matcher aborts and returns
the identity rotation, zero translation, and an infinite error value,
discarding any partially accumulated transform.  `Lidar_pose.icp_2d` has no
such abort: with fewer than 3 correspondences it falls back to the unfiltered
set and still produces a transform — see the counterexample. -/
theorem C3_icpPP_abort_under_six (svd : SvdFun α) (dst : List (Vec2 α))
    (maxd tol : α) (fuel : ℕ) (st : PPState α) (prev : Option α)
    (hcnt : countT ((nnDists st.src dst).map (fun d => decide (d < maxd * maxd))) < 6) :
    icpPPGo svd dst maxd tol (fuel + 1) st prev = (1, 0, none) := by
  simp only [icpPPGo]
  rw [if_pos hcnt]

/-- Witness for C3: a single far-away source point, count 0 < 6. -/
theorem C3_icpPP_abort_under_six_witness :
    icpPPGo svdTriv [(⟨10, 0⟩ : Vec2 ℚ)] 1 (1 / 10000) (29 + 1)
      ⟨[⟨0, 0⟩], 1, 0⟩ none = (1, 0, none) :=
  C3_icpPP_abort_under_six svdTriv [⟨10, 0⟩] 1 (1 / 10000) 29 ⟨[⟨0, 0⟩], 1, 0⟩ none
    (by with_unfolding_all decide)

/-- Counterexample for C3 as frozen: `Lidar_pose.icp_2d` (the other cited
matcher) run on a 1-point source and destination — every iteration has a
single correspondence, fewer than 3 even after the fallback — does not abort:
it returns a non-identity transform and a finite error instead of identity
with infinite error.  (It actually returns a transform translating by 25 after
the 50 default iterations, because of the incremental-transform bug recorded
under C6.) -/
theorem C3_counterexample_icp2d_no_abort :
    (icp_2d svdTriv [(⟨0, 0⟩ : Vec2 ℚ)] [⟨1, 0⟩] 50 (1 / 100000) (95 / 100)).1 ≠ affId ∧
    (icp_2d svdTriv [(⟨0, 0⟩ : Vec2 ℚ)] [⟨1, 0⟩] 50 (1 / 100000) (95 / 100)).2.1 ≠ none := by
  constructor
  · with_unfolding_all decide
  · with_unfolding_all decide

/-- The source and destination clouds of the C6 evaluation: `c6dst` is `c6src`
translated by `(1, 0)`; their self/cross covariance is `diag(8, 6)`. -/
def c6src : List (Vec2 ℚ) := [⟨0, 0⟩, ⟨4, 0⟩, ⟨2, 3⟩]

def c6dst : List (Vec2 ℚ) := [⟨1, 0⟩, ⟨5, 0⟩, ⟨3, 3⟩]

/-- The SVD oracle value for `diag(8, 6)` (numpy returns `(I, [8, 6], I)`),
the only matrix the C6 evaluation applies it to. -/
def svdDiag86 : SvdFun ℚ := fun _ => (1, (8, 6), 1)

/-- Claim C6: evaluation at the failing input.  After two `icp_2d` iterations
on `c6src` against its `(1,0)`-translate, the accumulated transform is the
correct translation by `(1,0)`, but the working source set has reverted to the
*original* source points — because the source applies each incremental
transform to the original `src_h`, not to the already-updated set — so the
invariant "working source = accumulated transform applied to original source"
fails. -/
theorem C6_icp2d_step_applies_original :
    ((icp2dStep svdDiag86 c6src c6dst (95 / 100)
        (icp2dStep svdDiag86 c6src c6dst (95 / 100) ⟨affId, c6src⟩).1).1).T =
      ⟨1, ⟨1, 0⟩⟩ ∧
    ((icp2dStep svdDiag86 c6src c6dst (95 / 100)
        (icp2dStep svdDiag86 c6src c6dst (95 / 100) ⟨affId, c6src⟩).1).1).src = c6src ∧
    ((icp2dStep svdDiag86 c6src c6dst (95 / 100)
        (icp2dStep svdDiag86 c6src c6dst (95 / 100) ⟨affId, c6src⟩).1).1).src ≠
      affApplyPts ((icp2dStep svdDiag86 c6src c6dst (95 / 100)
        (icp2dStep svdDiag86 c6src c6dst (95 / 100) ⟨affId, c6src⟩).1).1).T c6src := by
  refine ⟨by with_unfolding_all decide, by with_unfolding_all decide, by with_unfolding_all decide⟩

/-- Claim C7: applying `compose_transform(R2, t2, R1, t1)` to a point list
equals applying `(R1, t1)` first and `(R2, t2)` second, and the pose-chain
update (previous absolute pose first, relative transform second) applied to a
point equals the previous pose applied to the relative transform of that
point. -/
theorem C7_compose_transform_correct (R1 : Mat2 α) (t1 : Vec2 α)
    (R2 : Mat2 α) (t2 : Vec2 α) (pts : List (Vec2 α)) :
    transform_points pts (compose_transform R2 t2 R1 t1).1
        (compose_transform R2 t2 R1 t1).2 =
      transform_points (transform_points pts R1 t1) R2 t2 ∧
    (∀ prev rel : Mat2 α × Vec2 α, ∀ p : Vec2 α,
      mulVec2 (poseChainStep prev rel).1 p + (poseChainStep prev rel).2 =
        mulVec2 prev.1 (mulVec2 rel.1 p + rel.2) + prev.2) := by
  constructor
  · unfold transform_points compose_transform
    rw [List.map_map]
    apply map_congr'
    intro p _
    apply vec2_ext <;> simp [mulVec2, Function.comp] <;> ring
  · intro prev rel p
    unfold poseChainStep compose_transform
    apply vec2_ext <;> simp [mulVec2] <;> ring

end ClaimsICP

section LidarParsing

/-- Telegram token constants. -/
def tokDIST1 : String := "DIST1"

def tokRSSI1 : String := "RSSI1"

def tokLMD : String := "LMDscandata"

def hexDigit? (c : Char) : Option ℕ :=
  if '0' ≤ c ∧ c ≤ '9' then some (c.toNat - 48)
  else if 'a' ≤ c ∧ c ≤ 'f' then some (c.toNat - 87)
  else if 'A' ≤ c ∧ c ≤ 'F' then some (c.toNat - 55)
  else none

def hexAcc : ℕ → List Char → Option ℕ
  | acc, [] => some acc
  | acc, c :: cs =>
    match hexDigit? c with
    | none => none
    | some d => hexAcc (16 * acc + d) cs

/-- Python `int(tok, 16)`, restricted to the plain nonnegative hex-digit
strings the telegrams carry; the empty string and non-hex strings fail. -/
def hexVal? (s : String) : Option ℕ :=
  match s.data with
  | [] => none
  | l => hexAcc 0 l

/-- Constant `START_ANGLE` of `Lidar_pose.py` / `Realtime_Lidar_811_points.py`. -/
def START_ANGLE : ℚ := -45

def SPAN_DEG : ℚ := 270

def POINT_COUNT : ℕ := 811

/-- Constant `CANON_RES = SPAN_DEG / (POINT_COUNT - 1)`. -/
def CANON_RES : ℚ := SPAN_DEG / ((POINT_COUNT : ℚ) - 1)

/-- List `canonical_angles = [START_ANGLE + i * CANON_RES for i in range(POINT_COUNT)]`. -/
def canonicalAngles : List ℚ :=
  (List.range POINT_COUNT).map (fun i : ℕ => START_ANGLE + (i : ℚ) * CANON_RES)

/-- One canonical-scan entry `{"angle": ..., "range": ...}`; `none` is the
null range. -/
structure Entry where
  angle : ℚ
  range : Option ℚ
deriving DecidableEq, Repr

/-- Function `lerp(x0, y0, x1, y1, x)` of `Lidar_pose.py`. -/
def lerp (x0 y0 x1 y1 x : ℚ) : ℚ :=
  if x1 = x0 then y0 else y0 + (y1 - y0) * (x - x0) / (x1 - x0)

/-- The inner `while vi + 1 < len(va) and va[vi+1] < ang: vi += 1` loop. -/
def advanceVi (va : List ℚ) (ang : ℚ) (vi : ℕ) : ℕ :=
  if h : vi + 1 < va.length ∧ va.getD (vi + 1) 0 < ang then advanceVi va ang (vi + 1)
  else vi
termination_by va.length - vi
decreasing_by omega

/-- The per-angle body of the resampling loop: clamp before the first valid
angle, clamp after the last, otherwise advance `vi` and interpolate. -/
def resampleOne (va vr : List ℚ) (vi : ℕ) (ang : ℚ) : ℕ × ℚ :=
  if ang ≤ va.getD 0 0 then (vi, vr.getD 0 0)
  else if va.getD (va.length - 1) 0 ≤ ang then (vi, vr.getD (vr.length - 1) 0)
  else
    (advanceVi va ang vi,
     lerp (va.getD (advanceVi va ang vi) 0) (vr.getD (advanceVi va ang vi) 0)
       (va.getD (advanceVi va ang vi + 1) 0) (vr.getD (advanceVi va ang vi + 1) 0) ang)

/-- The resampling loop over the canonical angles, threading the mutable `vi`. -/
def resampleList (va vr : List ℚ) : ℕ → List ℚ → List Entry
  | _, [] => []
  | vi, ang :: rest =>
    ⟨ang, some (resampleOne va vr vi ang).2⟩ ::
      resampleList va vr (resampleOne va vr vi ang).1 rest

/-- The range-token extraction of `parse_and_resample`: tokens from `idx + 5`
up to `min(end, len(parts))` where `end` is `idx + 5 + count`, cut at a
`RSSI1` marker (Python's `parts.index` finds it globally); each token is hex
in millimetres, converted to metres, invalid tokens becoming `None`. -/
def rawValues (parts : List String) (idx count : ℕ) : List (Option ℚ) :=
  ((parts.take
      (min (if tokRSSI1 ∈ parts.drop (idx + 5) then firstIdx parts tokRSSI1
            else idx + 5 + count)
        parts.length)).drop (idx + 5)).map
    (fun h => (hexVal? h).map (fun n => (n : ℚ) / 1000))

/-- The `if len(values) == 0: values = [None] * POINT_COUNT` padding. -/
def paddedValues (values0 : List (Option ℚ)) : List (Option ℚ) :=
  if values0 = [] then List.replicate POINT_COUNT none else values0

/-- The measured angle grid for `n` samples: the single start angle for
`n = 1`, otherwise evenly spaced over the span. -/
def measuredAngles (n : ℕ) : List ℚ :=
  if n = 1 then [START_ANGLE]
  else (List.range n).map (fun i : ℕ => START_ANGLE + (i : ℚ) * (SPAN_DEG / ((n : ℚ) - 1)))

/-- List `valid = [(a, r) for a, r in zip(measured_angles, values) if r is not None]`. -/
def validPairs (values0 : List (Option ℚ)) : List (ℚ × ℚ) :=
  ((measuredAngles (paddedValues values0).length).zip (paddedValues values0)).filterMap
    (fun p => p.2.map (fun r => (p.1, r)))

/-- The three result shapes of the resampling: all-null when no valid sample,
broadcast of the only valid range, else clamp/interpolate. -/
def resampleCore (valid : List (ℚ × ℚ)) : List Entry :=
  match valid with
  | [] => canonicalAngles.map (fun a => ⟨a, none⟩)
  | [v] => canonicalAngles.map (fun a => ⟨a, some v.2⟩)
  | v :: v' :: vs =>
    resampleList ((v :: v' :: vs).map Prod.fst) ((v :: v' :: vs).map Prod.snd) 0
      canonicalAngles

/-- Everything in `parse_and_resample` after the raw-value conversion: pad an
empty list to `POINT_COUNT` nulls, build the measured angle grid, keep valid
samples, then clamp / broadcast / interpolate onto the canonical grid. -/
def resampleValues (values0 : List (Option ℚ)) : List Entry :=
  resampleCore (validPairs values0)

/-- Function `parse_and_resample(block)` of `Lidar_pose.py` /
`Realtime_Lidar_811_points.py`, from the token list `block.split()` on:
`None` when `DIST1` is missing or the count token is absent or non-hex. -/
def parse_and_resample (parts : List String) : Option (List Entry) :=
  if tokDIST1 ∈ parts then
    (parts.get? (firstIdx parts tokDIST1 + 4)).bind (fun ct =>
      (hexVal? ct).map (fun count =>
        resampleValues (rawValues parts (firstIdx parts tokDIST1) count)))
  else none

/-- Geometry constants of `realtime_lidar.py` (`UNIT = "mm"`, so the unit
factor is 1). -/
def RT_START : ℚ := -45

def RT_END : ℚ := 225

def NUM_POINTS : ℕ := 811

def RT_STEP : ℚ := (RT_END - RT_START) / ((NUM_POINTS : ℚ) - 1)

def MIN_DIST : ℕ := 50

def MAX_DIST : ℕ := 25000

/-- A `{"timestamp", "x", "y", "angle"}` point object (timestamp omitted). -/
structure PointObj where
  x : ℚ
  y : ℚ
  angle : ℚ
deriving DecidableEq, Repr

/-- Python `enumerate` + map. -/
def enumMap {β γ : Type} (f : ℕ → β → γ) : ℕ → List β → List γ
  | _, [] => []
  | i, b :: bs => f i b :: enumMap f (i + 1) bs

/-- The defensive pad/trim at the end of `polar_to_point_objects`: pad with
literal `(0.0, 0.0)` points up to `NUM_POINTS`, else truncate. -/
def padTrim (fmt3 : ℚ → ℚ) (pts : List PointObj) : List PointObj :=
  if pts.length < NUM_POINTS then
    pts ++ (List.range (NUM_POINTS - pts.length)).map
      (fun k : ℕ => ⟨0, 0, fmt3 (RT_START + (((pts.length + k : ℕ)) : ℚ) * RT_STEP)⟩)
  else pts.take NUM_POINTS

/-- Function `polar_to_point_objects(distances)` of `realtime_lidar.py`.  The
trigonometry and the `%.3f` float formatting are abstracted as parameters:
`cosD`/`sinD` is cosine/sine of an angle given in degrees, `fmt3` the
formatting round-trip `float(f"{v:.3f}")`.  A sample outside
`[MIN_DIST, MAX_DIST]` — zero included — is emitted as the point `(0, 0)`,
exactly as the source does. -/
def polar_to_point_objects (cosD sinD fmt3 : ℚ → ℚ) (distances : List ℕ) :
    List PointObj :=
  padTrim fmt3 (enumMap (fun i r =>
    if r < MIN_DIST ∨ MAX_DIST < r then
      ⟨fmt3 0, fmt3 0, fmt3 (RT_START + (i : ℚ) * RT_STEP)⟩
    else
      ⟨fmt3 ((r : ℚ) * cosD (RT_START + (i : ℚ) * RT_STEP)),
       fmt3 ((r : ℚ) * sinD (RT_START + (i : ℚ) * RT_STEP)),
       fmt3 (RT_START + (i : ℚ) * RT_STEP)⟩) 0 distances)

/-- The parsed scan of `withframes.parse_ascii_frame`. -/
structure WScan where
  start_angle : ℚ
  step_angle : ℚ
  distances : List ℕ
deriving DecidableEq, Repr

/-- The heuristic geometry scan of `withframes.parse_ascii_frame`: walk all
tokens; for `i > 15` and token length `≥ 3`, a hex value in
`(1000000, 2000000)` becomes the start angle if still unset, else a value
`< 10000` becomes the step if still unset. -/
def heurGo : ℕ → Option ℕ × Option ℕ → List String → Option ℕ × Option ℕ
  | _, st, [] => st
  | i, st, t :: ts =>
    heurGo (i + 1)
      (if 15 < i ∧ 3 ≤ t.length then
        match hexVal? t with
        | some v =>
          if st.1 = none ∧ 1000000 < v ∧ v < 2000000 then (some v, st.2)
          else if st.2 = none ∧ v < 10000 then (st.1, some v)
          else st
        | none => st
      else st) ts

def heurScan (tokens : List String) : Option ℕ × Option ℕ := heurGo 0 (none, none) tokens

/-- The fallback `-1350000` (i.e. `-135°`) when the heuristic finds no start
angle. -/
def startRawOf (st : Option ℕ × Option ℕ) : ℤ :=
  match st.1 with
  | none => -1350000
  | some v => (v : ℤ)

/-- The fallback `3333` (i.e. `0.3333°`) when the heuristic finds no step. -/
def stepRawOf (st : Option ℕ × Option ℕ) : ℤ :=
  match st.2 with
  | none => 3333
  | some v => (v : ℤ)

/-- Function `parse_ascii_frame(frame)` of `withframes.py` on the token list (the
`"LMDscandata" in text` substring test becomes token membership — the
telegram carries the marker as a standalone token).  The sample count is read
at `dist_idx + 1`, clamped to the available tokens; non-hex sample tokens
become `0`. -/
def parse_ascii_frame (tokens : List String) : Option WScan :=
  if tokLMD ∈ tokens then
    if tokDIST1 ∈ tokens then
      (tokens.get? (firstIdx tokens tokDIST1 + 1)).bind (fun ct =>
        (hexVal? ct).map (fun np0 =>
          { start_angle := ((startRawOf (heurScan tokens) : ℚ)) / 10000,
            step_angle := ((stepRawOf (heurScan tokens) : ℚ)) / 10000,
            distances :=
              (List.range
                  (min np0 (tokens.length - (firstIdx tokens tokDIST1 + 2)))).map
                (fun i =>
                  (hexVal? (tokens.getD (firstIdx tokens tokDIST1 + 2 + i) (""))).getD 0) }))
    else none
  else none

end LidarParsing

section Framing

/-- The telegram start marker `\x02`. -/
def STXc : Char := '\x02'

/-- The telegram end marker `\x03`. -/
def ETXc : Char := '\x03'

/-- Outcome of one round of the packet-extraction loop. -/
inductive FrameStep where
  | emit (packet rest : List Char)
  | buffered
  | errRaised
deriving DecidableEq, Repr

/-- One round of the framing loop of `collect_lidar_frames` (`Lidar_pose.py`)
and `main` (`Realtime_Lidar_811_points.py`):
`while STX in buffer and ETX in buffer: s = buffer.index(STX);
e = buffer.index(ETX, s + 1); packet = buffer[s+1:e]; buffer = buffer[e+1:]`.
`errRaised` marks the uncaught `ValueError` that `buffer.index(ETX, s + 1)`
raises when no end marker follows the first start marker. -/
def frameStep (buf : List Char) : FrameStep :=
  if STXc ∈ buf ∧ ETXc ∈ buf then
    match (buf.drop (firstIdx buf STXc + 1)).findIdx? (fun c => c == ETXc) with
    | some k =>
      .emit ((buf.drop (firstIdx buf STXc + 1)).take k)
        (buf.drop (firstIdx buf STXc + 1 + k + 1))
    | none => .errRaised
  else .buffered

end Framing

section OccupancyMap

/-- The bin index `np.histogram2d` assigns to coordinate `x` for `n` uniform
bins over `[lo, hi]`: out-of-range values contribute nothing, the right edge
belongs to the last bin. -/
def binIdx (lo hi : ℚ) (n : ℕ) (x : ℚ) : Option ℕ :=
  if x < lo ∨ hi < x then none
  else if hi ≤ x then some (n - 1)
  else some (Int.toNat ⌊(x - lo) * (n : ℚ) / (hi - lo)⌋)

/-- The occupancy grid: shape after `np.rot90`, with cell counts computed on
demand. -/
structure GridMap where
  xbins : ℕ
  ybins : ℕ
  cell : ℕ → ℕ → ℕ

/-- Function `build_map(all_points_world, resolution, padding)` of `slam_map.py`:
extent = bounding box ± padding, `ceil(span / resolution)` bins per axis,
2D histogram, then `np.rot90`, so `H[i][j] = H0[j][y_bins - 1 - i]`. -/
def build_map (pts : List (Vec2 ℚ)) (resolution padding : ℚ) : GridMap :=
  { xbins := Int.toNat ⌈(listMax (pts.map Vec2.y) + padding -
      (listMin (pts.map Vec2.y) - padding)) / resolution⌉,
    ybins := Int.toNat ⌈(listMax (pts.map Vec2.x) + padding -
      (listMin (pts.map Vec2.x) - padding)) / resolution⌉,
    cell := fun i j =>
      (pts.filter (fun p =>
        decide (binIdx (listMin (pts.map Vec2.x) - padding)
            (listMax (pts.map Vec2.x) + padding)
            (Int.toNat ⌈(listMax (pts.map Vec2.x) + padding -
              (listMin (pts.map Vec2.x) - padding)) / resolution⌉) p.x = some j ∧
          binIdx (listMin (pts.map Vec2.y) - padding)
            (listMax (pts.map Vec2.y) + padding)
            (Int.toNat ⌈(listMax (pts.map Vec2.y) + padding -
              (listMin (pts.map Vec2.y) - padding)) / resolution⌉) p.y =
            some (Int.toNat ⌈(listMax (pts.map Vec2.y) + padding -
              (listMin (pts.map Vec2.y) - padding)) / resolution⌉ - 1 - i)))).length }

end OccupancyMap

section ClaimsParsing

theorem resampleList_length (va vr : List ℚ) (vi : ℕ) (angs : List ℚ) :
    (resampleList va vr vi angs).length = angs.length := by
  induction angs generalizing vi with
  | nil => rfl
  | cons a rest ih => simp [resampleList, ih]

theorem resampleList_angle (va vr : List ℚ) (angs : List ℚ) :
    ∀ (vi i : ℕ), i < angs.length →
      ((resampleList va vr vi angs).getD i ⟨0, none⟩).angle = angs.getD i 0 := by
  induction angs with
  | nil => intro vi i h; simp at h
  | cons a rest ih =>
    intro vi i h
    cases i with
    | zero => simp [resampleList]
    | succ n =>
      simp only [resampleList, List.getD_cons_succ]
      exact ih _ n (by simpa [Nat.succ_lt_succ_iff] using h)

theorem canonicalAngles_length : canonicalAngles.length = POINT_COUNT := by
  unfold canonicalAngles
  rw [List.length_map, List.length_range]

theorem canonicalAngles_getD (i : ℕ) (h : i < POINT_COUNT) :
    canonicalAngles.getD i 0 = START_ANGLE + i * CANON_RES := by
  unfold canonicalAngles
  have hlen : i < (List.range POINT_COUNT).length := by
    rw [List.length_range]; exact h
  rw [getD_map_lt (fun i : ℕ => START_ANGLE + (i : ℚ) * CANON_RES) hlen 0 0]
  have hi : (List.range POINT_COUNT).getD i 0 = i := by
    rw [List.getD_eq_getElem _ _ hlen]
    simp
  rw [hi]

theorem resampleCore_spec (valid : List (ℚ × ℚ)) :
    (resampleCore valid).length = POINT_COUNT ∧
    ∀ i : ℕ, i < POINT_COUNT →
      ((resampleCore valid).getD i ⟨0, none⟩).angle = START_ANGLE + i * CANON_RES := by
  rcases valid with _ | ⟨v, _ | ⟨v', vs⟩⟩
  · constructor
    · simp only [resampleCore]
      rw [List.length_map, canonicalAngles_length]
    · intro i h
      simp only [resampleCore]
      rw [getD_map_lt (fun a => (⟨a, none⟩ : Entry))
        (by rw [canonicalAngles_length]; exact h) 0 ⟨0, none⟩]
      exact canonicalAngles_getD i h
  · constructor
    · simp only [resampleCore]
      rw [List.length_map, canonicalAngles_length]
    · intro i h
      simp only [resampleCore]
      rw [getD_map_lt (fun a => (⟨a, some v.2⟩ : Entry))
        (by rw [canonicalAngles_length]; exact h) 0 ⟨0, none⟩]
      exact canonicalAngles_getD i h
  · constructor
    · simp only [resampleCore]
      rw [resampleList_length, canonicalAngles_length]
    · intro i h
      simp only [resampleCore]
      rw [resampleList_angle _ _ _ _ _ (by rw [canonicalAngles_length]; exact h)]
      exact canonicalAngles_getD i h

/-- Claim C4: whenever `parse_and_resample` does not return `None` (the
distance-block marker was found and the declared count parsed), the produced
canonical scan has exactly `POINT_COUNT = 811` entries whose angles lie on
the fixed grid `START_ANGLE + i * CANON_RES` — regardless of how many range
tokens the frame actually carried. -/
theorem C4_canonical_scan_shape (parts : List String)
    (h : (parse_and_resample parts).isSome) :
    ((parse_and_resample parts).getD []).length = POINT_COUNT ∧
    ∀ i : ℕ, i < POINT_COUNT →
      (((parse_and_resample parts).getD []).getD i ⟨0, none⟩).angle =
        START_ANGLE + i * CANON_RES := by
  obtain ⟨res, hres⟩ := Option.isSome_iff_exists.mp h
  have hshape : ∃ v, res = resampleValues v := by
    unfold parse_and_resample at hres
    by_cases h1 : tokDIST1 ∈ parts
    · rw [if_pos h1] at hres
      obtain ⟨ct, hct, hres2⟩ := Option.bind_eq_some.mp hres
      obtain ⟨count, hcount, heq⟩ := Option.map_eq_some'.mp hres2
      exact ⟨_, heq.symm⟩
    · rw [if_neg h1] at hres
      exact absurd hres (by simp)
  obtain ⟨v, rfl⟩ := hshape
  rw [hres]
  simpa using resampleCore_spec (validPairs v)

/-- Witness frame for C4: `DIST1` with declared count 1 whose single range
token is not hexadecimal, so every canonical entry is null. -/
def c4parts : List String := ["DIST1", "w", "w", "w", "1", "zz"]

/-- Witness for C4. -/
theorem C4_canonical_scan_shape_witness :
    ((parse_and_resample c4parts).getD []).length = POINT_COUNT :=
  (C4_canonical_scan_shape c4parts (by with_unfolding_all decide)).1

/-- Claim C5: evaluation at the failing input.  `realtime_lidar.py`'s
`polar_to_point_objects` on a frame whose only sample is the invalid range 0
emits the zero point `(0, 0)` as the first point of an 811-point cloud (and
zero-pads the rest) instead of representing the invalid sample as null and
contributing no point. -/
theorem C5_invalid_sample_emits_zero_point (cosD sinD fmt3 : ℚ → ℚ)
    (hf : fmt3 0 = 0) :
    (polar_to_point_objects cosD sinD fmt3 [0]).length = NUM_POINTS ∧
    ((polar_to_point_objects cosD sinD fmt3 [0]).headD ⟨1, 1, 1⟩).x = 0 ∧
    ((polar_to_point_objects cosD sinD fmt3 [0]).headD ⟨1, 1, 1⟩).y = 0 := by
  have hbase : enumMap (fun i r =>
      if r < MIN_DIST ∨ MAX_DIST < r then
        (⟨fmt3 0, fmt3 0, fmt3 (RT_START + (i : ℚ) * RT_STEP)⟩ : PointObj)
      else
        ⟨fmt3 ((r : ℚ) * cosD (RT_START + (i : ℚ) * RT_STEP)),
         fmt3 ((r : ℚ) * sinD (RT_START + (i : ℚ) * RT_STEP)),
         fmt3 (RT_START + (i : ℚ) * RT_STEP)⟩) 0 [0] =
      [⟨fmt3 0, fmt3 0, fmt3 (RT_START + (0 : ℚ) * RT_STEP)⟩] := by
    simp [enumMap, MIN_DIST, MAX_DIST]
  unfold polar_to_point_objects
  rw [hbase]
  unfold padTrim
  rw [if_pos (by simp [NUM_POINTS])]
  refine ⟨?_, ?_, ?_⟩
  · simp [NUM_POINTS]
  · simp [hf]
  · simp [hf]

/-- Witness for C5 with the abstracted trigonometry/formatting instantiated. -/
theorem C5_invalid_sample_emits_zero_point_witness :
    (polar_to_point_objects id id id [0]).length = NUM_POINTS ∧
    ((polar_to_point_objects id id id [0]).headD ⟨1, 1, 1⟩).x = 0 ∧
    ((polar_to_point_objects id id id [0]).headD ⟨1, 1, 1⟩).y = 0 :=
  C5_invalid_sample_emits_zero_point id id id rfl

/-- Claim C8: evaluation at the failing input.  On a buffer whose only end
marker precedes the first start marker (`"\x03\x02ab"`), the framing loop
enters its body (both markers are present) and `buffer.index(ETX, s + 1)`
raises an uncaught `ValueError` — the step is not total, contradicting
"raises no exception and leaves the partial data buffered".  On a well-formed
buffer the loop does extract exactly the bytes strictly between the markers
and discards everything up to and including the end marker. -/
theorem C8_framing_raises_on_lone_leading_etx :
    frameStep ['\x03', '\x02', 'a', 'b'] = FrameStep.errRaised ∧
    frameStep ['x', '\x02', 'a', '\x03', 'y'] = FrameStep.emit ['a'] ['y'] ∧
    frameStep ['x', 'y'] = FrameStep.buffered := by
  refine ⟨by decide, by decide, by decide⟩

/-- Claim C9 (amended): the decoder never reads the on-wire geometry from its
fixed field order; it guesses start/step by scanning every token for hex
values in heuristic numeric ranges, and whenever that scan finds no
candidates the documented nominal geometry (start `-135°`, step `0.3333°`)
is used. -/
theorem C9_fallback_when_heuristic_misses (tokens : List String)
    (hh : heurScan tokens = (none, none)) (r : WScan)
    (hr : parse_ascii_frame tokens = some r) :
    r.start_angle = -135 ∧ r.step_angle = 3333 / 10000 := by
  unfold parse_ascii_frame at hr
  by_cases h1 : tokLMD ∈ tokens
  · rw [if_pos h1] at hr
    by_cases h2 : tokDIST1 ∈ tokens
    · rw [if_pos h2] at hr
      obtain ⟨ct, hct, hr2⟩ := Option.bind_eq_some.mp hr
      obtain ⟨np0, hnp, rfl⟩ := Option.map_eq_some'.mp hr2
      constructor
      · show ((startRawOf (heurScan tokens) : ℚ)) / 10000 = -135
        rw [hh]
        norm_num [startRawOf]
      · show ((stepRawOf (heurScan tokens) : ℚ)) / 10000 = 3333 / 10000
        rw [hh]
        norm_num [stepRawOf]
    · rw [if_neg h2] at hr
      exact absurd hr (by simp)
  · rw [if_neg h1] at hr
    exact absurd hr (by simp)

/-- Witness tokens for C9: a telegram whose sample value (`0x2EE0 = 12000`)
escapes both heuristic ranges, so neither geometry candidate is found. -/
def c9fillers : List String := tokLMD :: List.replicate 15 ("z")

def c9witnessToks : List String := c9fillers ++ [tokDIST1, "1", "2EE0"]

/-- The scan `parse_ascii_frame` produces on the witness tokens, with the
geometry fields left in their raw fallback form. -/
def c9witnessScan : WScan :=
  ⟨((startRawOf (heurScan c9witnessToks) : ℚ)) / 10000,
   ((stepRawOf (heurScan c9witnessToks) : ℚ)) / 10000, [12000]⟩

theorem c9witness_parse : parse_ascii_frame c9witnessToks = some c9witnessScan := by
  unfold parse_ascii_frame
  rw [if_pos (by decide), if_pos (by decide)]
  rw [show c9witnessToks.get? (firstIdx c9witnessToks tokDIST1 + 1) = some ("1") by decide]
  simp only [Option.some_bind]
  rw [show hexVal? ("1") = some 1 by decide]
  simp only [Option.map_some']
  unfold c9witnessScan
  refine congrArg some ?_
  simp only [WScan.mk.injEq]
  exact ⟨by trivial, by trivial, by decide⟩

/-- Witness for C9. -/
theorem C9_fallback_when_heuristic_misses_witness :
    c9witnessScan.start_angle = -135 ∧ c9witnessScan.step_angle = 3333 / 10000 :=
  C9_fallback_when_heuristic_misses c9witnessToks (by decide) c9witnessScan
    c9witness_parse

/-- Counterexample tokens for C9: a well-formed on-wire geometry in the fixed
field order after `DIST1` — scale `1`, start angle `0xFFF92230`
(two's-complement `-450000`, i.e. `-45°`), step `0xD05 = 3333`, count `2`,
then two samples. -/
def c9cexToks : List String :=
  c9fillers ++ [tokDIST1, "1", "FFF92230", "D05", "2", "3E8", "7D0"]

/-- Counterexample for C9 as frozen: with a well-formed explicit geometry on
the wire the decoder still reports the fallback start angle `-135°` (the
heuristic cannot represent a negative start angle at all: the raw token reads
as the unsigned value 4294517296, outside its search range), and it reads the
sample count from the scale-factor position — so the explicit on-wire
geometry (start `-45°`) does not take precedence. -/
theorem C9_counterexample_onwire_geometry_ignored :
    parse_ascii_frame c9cexToks = some ⟨-135, 3333 / 10000, [4294517296]⟩ ∧
    ((-450000 : ℚ) / 10000 = -45) ∧ ((-135 : ℚ) ≠ -45) := by
  refine ⟨?_, by norm_num, by norm_num⟩
  unfold parse_ascii_frame
  rw [if_pos (by decide), if_pos (by decide)]
  rw [show c9cexToks.get? (firstIdx c9cexToks tokDIST1 + 1) = some ("1") by decide]
  simp only [Option.some_bind]
  rw [show hexVal? ("1") = some 1 by decide]
  simp only [Option.map_some']
  refine congrArg some ?_
  simp only [WScan.mk.injEq]
  rw [show heurScan c9cexToks = (none, some 3333) by decide]
  refine ⟨by norm_num [startRawOf], by norm_num [stepRawOf], by decide⟩

end ClaimsParsing

section ClaimsMap

variable {α : Type} [LinearOrderedField α] [FloorRing α]

theorem foldl_max_init_le (a : α) (l : List α) : a ≤ l.foldl max a := by
  induction l generalizing a with
  | nil => simp
  | cons x xs ih =>
    simp only [List.foldl_cons]
    exact le_trans (le_max_left a x) (ih (max a x))

theorem foldl_max_mem_le (a : α) (l : List α) : ∀ x ∈ l, x ≤ l.foldl max a := by
  induction l generalizing a with
  | nil => simp
  | cons y ys ih =>
    intro x hx
    rcases List.mem_cons.mp hx with h | h
    · subst h
      simp only [List.foldl_cons]
      exact le_trans (le_max_right a x) (foldl_max_init_le _ _)
    · exact ih (max a y) x h

theorem foldl_max_mem (a : α) (l : List α) : l.foldl max a = a ∨ l.foldl max a ∈ l := by
  induction l generalizing a with
  | nil => left; rfl
  | cons y ys ih =>
    simp only [List.foldl_cons]
    rcases ih (max a y) with h | h
    · rcases max_choice a y with h2 | h2
      · left; rw [h, h2]
      · right; rw [h, h2]; exact List.mem_cons_self y ys
    · right; exact List.mem_cons_of_mem _ h

theorem listMax_ge {l : List α} : ∀ x ∈ l, x ≤ listMax l :=
  foldl_max_mem_le _ _

theorem listMax_mem {l : List α} (h : l ≠ []) : listMax l ∈ l := by
  rcases foldl_max_mem (l.headD 0) l with h' | h'
  · unfold listMax
    rw [h']
    cases l with
    | nil => exact absurd rfl h
    | cons x xs => exact List.mem_cons_self x xs
  · exact h'

theorem listMin_append_self {l : List α} (h : l ≠ []) :
    listMin (l ++ l) = listMin l := by
  have hne2 : l ++ l ≠ [] := by
    cases l with
    | nil => exact absurd rfl h
    | cons x xs => simp
  apply le_antisymm
  · exact listMin_le _ (List.mem_append_left _ (listMin_mem h))
  · rcases List.mem_append.mp (listMin_mem hne2) with h' | h' <;>
      exact listMin_le _ h'

theorem listMax_append_self {l : List α} (h : l ≠ []) :
    listMax (l ++ l) = listMax l := by
  have hne2 : l ++ l ≠ [] := by
    cases l with
    | nil => exact absurd rfl h
    | cons x xs => simp
  apply le_antisymm
  · rcases List.mem_append.mp (listMax_mem hne2) with h' | h' <;>
      exact listMax_ge _ h'
  · exact listMax_ge _ (List.mem_append_left _ (listMax_mem h))

/-- Claim C10 (amended): feeding the same accumulated world-frame point set
again never decreases any cell count of the produced histogram — the bounding
box, hence the binning, is unchanged and every count exactly doubles.
(Adding points that enlarge the bounding box shifts the bin edges and can
decrease individual cells — see the counterexample.) -/
theorem C10_same_input_again_monotone (P : List (Vec2 ℚ)) (hne : P ≠ [])
    (res pad : ℚ) (i j : ℕ) :
    (build_map P res pad).cell i j ≤ (build_map (P ++ P) res pad).cell i j := by
  have hxne : P.map Vec2.x ≠ [] := by
    cases P with
    | nil => exact absurd rfl hne
    | cons a l => simp
  have hyne : P.map Vec2.y ≠ [] := by
    cases P with
    | nil => exact absurd rfl hne
    | cons a l => simp
  have hminx : listMin ((P ++ P).map Vec2.x) = listMin (P.map Vec2.x) := by
    rw [List.map_append]; exact listMin_append_self hxne
  have hmaxx : listMax ((P ++ P).map Vec2.x) = listMax (P.map Vec2.x) := by
    rw [List.map_append]; exact listMax_append_self hxne
  have hminy : listMin ((P ++ P).map Vec2.y) = listMin (P.map Vec2.y) := by
    rw [List.map_append]; exact listMin_append_self hyne
  have hmaxy : listMax ((P ++ P).map Vec2.y) = listMax (P.map Vec2.y) := by
    rw [List.map_append]; exact listMax_append_self hyne
  simp only [build_map, hminx, hmaxx, hminy, hmaxy]
  rw [List.filter_append, List.length_append]
  exact Nat.le_add_right _ _

/-- Witness for C10 on a one-point cloud. -/
theorem C10_same_input_again_monotone_witness :
    (build_map [(⟨0, 0⟩ : Vec2 ℚ)] 50 20000).cell 0 0 ≤
      (build_map ([(⟨0, 0⟩ : Vec2 ℚ)] ++ [⟨0, 0⟩]) 50 20000).cell 0 0 :=
  C10_same_input_again_monotone [⟨0, 0⟩] (List.cons_ne_nil _ _) 50 20000 0 0

/-- Counterexample for C10 as frozen: adding the point `(4, 1)` to the set
`{(0,0), (1,1)}` enlarges the bounding box, so `build_map` recomputes the
extent, the x-binning changes from one bin to four, the two original points
land in different bins, and the histogram cell `(0, 0)` (after `rot90`)
drops from count 2 to count 1 — a strict decrease.  (Resolution 1, padding 0.)
-/
theorem C10_counterexample_extent_shift :
    (build_map ([⟨0, 0⟩, ⟨1, 1⟩] ++ [⟨4, 1⟩]) 1 0).cell 0 0 <
      (build_map [(⟨0, 0⟩ : Vec2 ℚ), ⟨1, 1⟩] 1 0).cell 0 0 := by
  with_unfolding_all decide

end ClaimsMap
